import Mathlib

/-!
Verification development for the browser DJ console (src/App.tsx).

The definitions below are a shallow embedding of the functions of the
source file.  JavaScript numbers are modelled as rationals (or reals
where the code uses trigonometric functions), JavaScript `null` and
`undefined` as `Option.none`, and JavaScript truthiness checks on
numbers and strings are spelled out explicitly (`0`, `""`, `null` and
`undefined` are falsy).  Opaque browser handles (File, AudioBuffer,
ArrayBuffer) are modelled as natural number tokens.
-/

namespace DJApp

/-- Rounding of JavaScript `Math.round`: floor of x + 1/2. -/
def jsRound (q : ℚ) : ℤ := ⌊q + 1 / 2⌋

/-- Truncation toward zero, as JavaScript number-to-integer conversion uses. -/
def ratTrunc (q : ℚ) : ℤ := if 0 ≤ q then ⌊q⌋ else ⌈q⌉

/-- The JavaScript remainder operator `a % b` (sign of the dividend,
truncated division).  For `b = 0` JavaScript yields NaN; that case is
unreachable in the verified paths, where it is guarded by `b > 0`. -/
def jsRem (a b : ℚ) : ℚ := a - b * ratTrunc (a / b)

/-- Song record of the library (interface `Song`, src/App.tsx:3195).
The `file` handle is opaque and modelled as a token.  Optional fields
(`key?`, `bpm?`, `genre?`, `energy?`) are `Option`s. -/
structure Song where
  id : ℕ
  name : String
  file : ℕ
  key : Option String
  bpm : Option ℚ
  genre : Option String
  energy : Option ℚ
  deriving DecidableEq, Repr

/-- Parsing model for `parseInt` on an all-digit prefix: a non-empty
digit string yields its value, anything else yields `none` (the NaN
outcome; `parseInt` would accept digit prefixes of mixed strings, which
never occur for Camelot key prefixes). -/
def parseIntDigits : List Char → Option ℕ
  | [] => none
  | cs =>
    if cs.all (fun c => c.isDigit) then
      some (cs.foldl (fun a c => a * 10 + (c.toNat - 48)) 0)
    else none

/-- Harmonic-compatibility table (`getCompatibleKeys`, src/App.tsx:1993).
Parses the Camelot key string: `parseInt(key.slice(0, -1))` is the
numeric part, `key.slice(-1)` the mode letter.  Returns the same number
with the opposite letter, then number + 1 (12 wraps to 1) with the same
letter, then number - 1 (1 wraps to 12) with the same letter.  The
source returns `[]` for an empty key; a non-numeric prefix (a NaN parse,
unreachable for Camelot keys) is modelled as `[]` as well. -/
def getCompatibleKeys (key : String) : List String :=
  if key = "" then []
  else
    match parseIntDigits (key.dropRight 1).data with
    | none => []
    | some num =>
      let letter := key.takeRight 1
      let opposite := if letter = "A" then "B" else "A"
      let nextNum := if num = 12 then 1 else num + 1
      let prevNum := if num = 1 then 12 else num - 1
      [toString num ++ opposite, toString nextNum ++ letter, toString prevNum ++ letter]

/-- Rendering of a Camelot key as the source strings it: number then
mode letter, `true` for mode `A`. -/
def camelotStr (n : ℕ) (modeA : Bool) : String :=
  toString n ++ (if modeA then "A" else "B")

/-- C8: for every Camelot key (number 1..12, mode A or B) the
compatibility list is exactly: same number with opposite mode, next
number (12 wraps to 1) with same mode, previous number (1 wraps to 12)
with same mode; in particular key 8A yields exactly 8B, 9A, 7A, and for
key 1A the previous-number neighbour is 12A. -/
theorem getCompatibleKeys_camelot (n : ℕ) (m : Bool) (h1 : 1 ≤ n) (h2 : n ≤ 12) :
    getCompatibleKeys (camelotStr n m) =
      [camelotStr n (!m),
       camelotStr (if n = 12 then 1 else n + 1) m,
       camelotStr (if n = 1 then 12 else n - 1) m]
    ∧ getCompatibleKeys "8A" = ["8B", "9A", "7A"]
    ∧ getCompatibleKeys "1A" = ["1B", "2A", "12A"] := by
  refine ⟨?_, by decide, by decide⟩
  interval_cases n <;> cases m <;> decide

/-- Witness for C8 at the concrete key 8A. -/
theorem getCompatibleKeys_camelot_witness :
    (1 ≤ 8 ∧ 8 ≤ 12)
    ∧ getCompatibleKeys (camelotStr 8 true) =
        [camelotStr 8 false, camelotStr 9 true, camelotStr 7 true] := by
  have h := getCompatibleKeys_camelot 8 true (by decide) (by decide)
  exact ⟨⟨by decide, by decide⟩, by simpa using h.1⟩

/-- Crossfader curve selector (`CrossfaderCurveType`, src/App.tsx:3280). -/
inductive CrossfaderCurveType where
  | linear
  | slowFade
  | fastCut
  deriving DecidableEq, Repr

/-- Crossfader gain law (crossfader useEffect, src/App.tsx:1041-1069).
The bipolar position `x` is normalised to `position = (x + 1) / 2`;
`slow-fade` is the constant-power pair (cos, sin), `fast-cut` the
cubic-steepened law split at the midpoint, and `linear` the default
`(1 - position, position)` pair.  Returns the pair (gainA, gainB). -/
noncomputable def crossfaderGains (curve : CrossfaderCurveType) (x : ℝ) : ℝ × ℝ :=
  let position := (x + 1) / 2
  match curve with
  | .slowFade =>
    (Real.cos (position * Real.pi / 2), Real.sin (position * Real.pi / 2))
  | .fastCut =>
    let p := if position < 1 / 2 then 2 * position else 2 * (1 - position)
    let shapedP := p ^ 3
    if position < 1 / 2 then (1 - shapedP / 2, shapedP / 2)
    else (shapedP / 2, 1 - shapedP / 2)
  | .linear => (1 - position, position)

/-- C3: for every crossfader position x in [-1, 1] and each of the three
curve laws, both deck gains lie in [0, 1], and at the endpoints they are
exact: gA(-1) = 1, gB(-1) = 0, gA(1) = 0, gB(1) = 1. -/
theorem crossfaderGains_bounds_and_boundaries (c : CrossfaderCurveType) (x : ℝ)
    (hx1 : -1 ≤ x) (hx2 : x ≤ 1) :
    (0 ≤ (crossfaderGains c x).1 ∧ (crossfaderGains c x).1 ≤ 1 ∧
     0 ≤ (crossfaderGains c x).2 ∧ (crossfaderGains c x).2 ≤ 1) ∧
    ((crossfaderGains c (-1)).1 = 1 ∧ (crossfaderGains c (-1)).2 = 0 ∧
     (crossfaderGains c 1).1 = 0 ∧ (crossfaderGains c 1).2 = 1) := by
  have hp0 : (0 : ℝ) ≤ (x + 1) / 2 := by linarith
  have hp1 : (x + 1) / 2 ≤ 1 := by linarith
  constructor
  · cases c with
    | linear =>
      simp only [crossfaderGains]
      exact ⟨by linarith, by linarith, by linarith, by linarith⟩
    | slowFade =>
      simp only [crossfaderGains]
      have hpi : (0 : ℝ) < Real.pi := Real.pi_pos
      have ht0 : (0 : ℝ) ≤ (x + 1) / 2 * Real.pi / 2 := by positivity
      have ht1 : (x + 1) / 2 * Real.pi / 2 ≤ Real.pi / 2 := by nlinarith
      refine ⟨Real.cos_nonneg_of_mem_Icc ⟨by linarith, ht1⟩, Real.cos_le_one _,
        Real.sin_nonneg_of_nonneg_of_le_pi ht0 (by linarith), Real.sin_le_one _⟩
    | fastCut =>
      simp only [crossfaderGains]
      split_ifs with h
      · have hq0 : (0 : ℝ) ≤ 2 * ((x + 1) / 2) := by linarith
        have hq1 : 2 * ((x + 1) / 2) ≤ 1 := by linarith
        have hc0 : (0 : ℝ) ≤ (2 * ((x + 1) / 2)) ^ 3 := by positivity
        have hc1 : (2 * ((x + 1) / 2)) ^ 3 ≤ 1 := by nlinarith [sq_nonneg (2 * ((x + 1) / 2))]
        exact ⟨by linarith, by linarith, by linarith, by linarith⟩
      · have hq0 : (0 : ℝ) ≤ 2 * (1 - (x + 1) / 2) := by linarith
        have hq1 : 2 * (1 - (x + 1) / 2) ≤ 1 := by linarith
        have hc0 : (0 : ℝ) ≤ (2 * (1 - (x + 1) / 2)) ^ 3 := by positivity
        have hc1 : (2 * (1 - (x + 1) / 2)) ^ 3 ≤ 1 := by
          nlinarith [sq_nonneg (2 * (1 - (x + 1) / 2))]
        exact ⟨by linarith, by linarith, by linarith, by linarith⟩
  · cases c with
    | linear => norm_num [crossfaderGains]
    | slowFade =>
      have e0 : ((-1 : ℝ) + 1) / 2 * Real.pi / 2 = 0 := by ring
      have e1 : ((1 : ℝ) + 1) / 2 * Real.pi / 2 = Real.pi / 2 := by ring
      simp only [crossfaderGains, e0, e1]
      exact ⟨Real.cos_zero, Real.sin_zero, Real.cos_pi_div_two, Real.sin_pi_div_two⟩
    | fastCut => norm_num [crossfaderGains]

/-- Witness for C3 at the linear curve and position 0. -/
theorem crossfaderGains_bounds_and_boundaries_witness :
    ((-1 : ℝ) ≤ 0 ∧ (0 : ℝ) ≤ 1) ∧
    (0 ≤ (crossfaderGains CrossfaderCurveType.linear 0).1 ∧
     (crossfaderGains CrossfaderCurveType.linear 0).1 ≤ 1 ∧
     0 ≤ (crossfaderGains CrossfaderCurveType.linear 0).2 ∧
     (crossfaderGains CrossfaderCurveType.linear 0).2 ≤ 1) :=
  ⟨⟨by norm_num, by norm_num⟩,
    (crossfaderGains_bounds_and_boundaries CrossfaderCurveType.linear 0
      (by norm_num) (by norm_num)).1⟩

/-- Consecutive inter-tap intervals, as the loop in `handleMetronomeTap`
(src/App.tsx:1245-1248) builds them: element i is timestamps[i+1] -
timestamps[i]. -/
def diffs : List ℚ → List ℚ
  | a :: b :: rest => (b - a) :: diffs (b :: rest)
  | _ => []

/-- Tap-window maintenance of `handleMetronomeTap` (src/App.tsx:1231-1242):
clear the window when the previous tap is truthy (nonzero) and more than
2000 ms old, push the new timestamp, and drop the oldest entry when the
window exceeds 5 entries. -/
def tapWindow (ts : List ℚ) (now : ℚ) : List ℚ :=
  let ts1 :=
    match ts.getLast? with
    | some l => if l ≠ 0 ∧ now - l > 2000 then [] else ts
    | none => ts
  let ts2 := ts1 ++ [now]
  if ts2.length > 5 then ts2.tail else ts2

/-- Full tap-tempo step (`handleMetronomeTap`, src/App.tsx:1231-1255):
updates the rolling window and, when it holds more than one tap and the
mean interval is positive, sets the tempo to the rounded value of
60000 / mean interval clamped to [40, 240]; otherwise the tempo is
unchanged.  Returns (new window, new tempo). -/
def tapUpdate (ts : List ℚ) (now : ℚ) (bpm : ℚ) : List ℚ × ℚ :=
  let w := tapWindow ts now
  if w.length > 1 then
    let intervals := diffs w
    let avg := intervals.sum / (intervals.length : ℚ)
    if 0 < avg then (w, max 40 (min 240 ((jsRound (60000 / avg) : ℤ) : ℚ)))
    else (w, bpm)
  else (w, bpm)

/-- Mean inter-tap interval expressed without the intervals list: total
span of the window divided by the number of gaps. -/
def meanIntervalOf (w : List ℚ) : ℚ :=
  (w.getLastD 0 - w.headD 0) / ((w.length - 1 : ℕ) : ℚ)

theorem tapUpdate_fst (ts : List ℚ) (now bpm : ℚ) :
    (tapUpdate ts now bpm).1 = tapWindow ts now := by
  simp only [tapUpdate]
  split_ifs <;> rfl

theorem getLast?_getD_irrel (l : List ℚ) (a b : ℚ) (h : l ≠ []) :
    l.getLast?.getD a = l.getLast?.getD b := by
  obtain ⟨v, hv⟩ := Option.isSome_iff_exists.mp (List.getLast?_isSome.mpr h)
  rw [hv]
  rfl

theorem diffs_sum (xs : List ℚ) (x : ℚ) :
    (diffs (x :: xs)).sum = xs.getLastD x - x := by
  induction xs generalizing x with
  | nil => simp [diffs]
  | cons y ys ih =>
    simp only [diffs, List.sum_cons, ih y, List.getLastD_eq_getLast?]
    cases ys with
    | nil => simp
    | cons z zs =>
      rw [List.getLast?_cons_cons, getLast?_getD_irrel (z :: zs) y x (by simp)]
      ring

theorem diffs_length (xs : List ℚ) (x : ℚ) :
    (diffs (x :: xs)).length = xs.length := by
  induction xs generalizing x with
  | nil => rfl
  | cons y ys ih => simp [diffs, ih y]

theorem diffs_eq_meanInterval (w : List ℚ) (hw : w ≠ []) :
    (diffs w).sum / ((diffs w).length : ℚ) = meanIntervalOf w := by
  obtain ⟨x, xs, rfl⟩ := List.exists_cons_of_ne_nil hw
  simp only [diffs_sum, diffs_length, meanIntervalOf, List.getLastD_eq_getLast?,
    List.length_cons, Nat.add_sub_cancel, List.headD_cons]
  cases xs with
  | nil => simp
  | cons z zs =>
    rw [List.getLast?_cons_cons, getLast?_getD_irrel (z :: zs) x 0 (by simp)]

theorem tapWindow_length_le (ts : List ℚ) (now : ℚ) (h : ts.length ≤ 5) :
    (tapWindow ts now).length ≤ 5 := by
  simp only [tapWindow]
  rcases hl : ts.getLast? with _ | l
  · simp only
    split_ifs with h6 <;>
      simp only [List.length_tail, List.length_append, List.length_cons,
        List.length_nil] at h6 ⊢ <;> omega
  · simp only
    split_ifs with h1 h6 h6 <;>
      simp only [List.length_tail, List.length_append, List.length_cons,
        List.length_nil] at * <;> omega

/-- C7: the tap-tempo window never exceeds 5 timestamps; a gap larger
than 2000 ms since the (nonzero) previous tap resets the window so the
new tap is tap number 1 and the tempo is unchanged; with two or more
taps the tempo becomes round(60000 / mean inter-tap interval) clamped to
[40, 240]; and three taps exactly 500 ms apart yield tempo 120. -/
theorem tap_tempo_window_and_bpm :
    (∀ (ts : List ℚ) (now bpm : ℚ), ts.length ≤ 5 →
        (tapUpdate ts now bpm).1.length ≤ 5) ∧
    (∀ (ts : List ℚ) (now bpm l : ℚ), ts.getLast? = some l → l ≠ 0 →
        now - l > 2000 →
        (tapUpdate ts now bpm).1 = [now] ∧ (tapUpdate ts now bpm).2 = bpm) ∧
    (∀ (ts : List ℚ) (now bpm : ℚ), 1 < (tapWindow ts now).length →
        0 < meanIntervalOf (tapWindow ts now) →
        (tapUpdate ts now bpm).2 =
          max 40 (min 240
            ((jsRound (60000 / meanIntervalOf (tapWindow ts now)) : ℤ) : ℚ))) ∧
    (∀ b0 : ℚ,
        (tapUpdate (tapUpdate (tapUpdate [] 100 b0).1 600
            (tapUpdate [] 100 b0).2).1 1100
          (tapUpdate (tapUpdate [] 100 b0).1 600 (tapUpdate [] 100 b0).2).2).2
          = 120) := by
  refine ⟨?_, ?_, ?_, ?_⟩
  · intro ts now bpm h
    rw [tapUpdate_fst]
    exact tapWindow_length_le ts now h
  · intro ts now bpm l hl hl0 hgap
    have hw : tapWindow ts now = [now] := by
      simp [tapWindow, hl, hl0, hgap]
    constructor
    · rw [tapUpdate_fst, hw]
    · simp only [tapUpdate, hw]
      norm_num
  · intro ts now bpm h1 hpos
    have hne : tapWindow ts now ≠ [] := by
      intro h
      rw [h] at h1
      simp at h1
    simp only [tapUpdate, diffs_eq_meanInterval _ hne]
    rw [if_pos h1, if_pos hpos]
  · intro b0
    have h1 : tapUpdate [] 100 b0 = ([100], b0) := by
      norm_num [tapUpdate, tapWindow]
    have h2 : tapUpdate [100] 600 b0 = ([100, 600], 120) := by
      norm_num [tapUpdate, tapWindow, diffs, jsRound]
    have h3 : tapUpdate [100, 600] 1100 120 = ([100, 600, 1100], 120) := by
      norm_num [tapUpdate, tapWindow, diffs, jsRound]
    rw [h1]
    simp only
    rw [h2]
    simp only
    rw [h3]

/-- Witness for C7: a fourth tap 2900 ms after the previous one resets
the window. -/
theorem tap_tempo_window_and_bpm_witness :
    ([100] : List ℚ).getLast? = some 100 ∧ (100 : ℚ) ≠ 0 ∧
    (3000 : ℚ) - 100 > 2000 ∧
    (tapUpdate [100] 3000 90).1 = [3000] ∧ (tapUpdate [100] 3000 90).2 = 90 := by
  have h := tap_tempo_window_and_bpm.2.1 [100] 3000 90 100 rfl (by norm_num) (by norm_num)
  exact ⟨rfl, by norm_num, by norm_num, h.1, h.2⟩

/-- Loop region of a deck (interface `DeckState`, src/App.tsx:3223-3227).
The source field `end` is a Lean keyword and is named `stop` here. -/
structure LoopRegion where
  start : Option ℚ
  stop : Option ℚ
  active : Bool
  deriving DecidableEq, Repr

/-- Deck state (interface `DeckState`, src/App.tsx:3212-3238).  The
source field `viewStartRatio` is named `viewStart` here; `waveform` is a
list of peak values standing in for the Float32Array. -/
structure DeckState where
  song : Option Song
  isPlaying : Bool
  gain : ℚ
  volume : ℚ
  playbackRate : ℚ
  currentTime : ℚ
  duration : ℚ
  platterAngle : ℚ
  cuePoints : List (Option ℚ)
  bpm : Option ℚ
  loop : LoopRegion
  waveform : Option (List ℚ)
  key : Option String
  zoom : ℚ
  viewStart : ℚ
  perceivedLoudness : Option ℚ
  lastUpdateTime : Option ℚ
  keyLock : Bool
  scratchModeEnabled : Bool
  wasPlayingBeforeScratch : Bool
  deriving DecidableEq, Repr

/-- Deck-state replacement performed by `loadSong` (src/App.tsx:1479-1519).
The fresh `newDeckState` sets every field except `lastUpdateTime` (so
the spread `{ ...d, ...newDeckState }` keeps the old `lastUpdateTime`),
with `gain: 50` and `playbackRate: 1`; the explicit trailing overrides
`volume: d.volume, keyLock: d.keyLock, scratchModeEnabled:
d.scratchModeEnabled` preserve those three user settings. -/
def loadSongApply (d : DeckState) (song : Song) (dur loud : ℚ) (wf : List ℚ) :
    DeckState where
  song := some song
  duration := dur
  isPlaying := false
  currentTime := 0
  platterAngle := 0
  bpm := song.bpm
  playbackRate := 1
  cuePoints := []
  loop := ⟨none, none, false⟩
  waveform := some wf
  key := song.key
  zoom := 1
  viewStart := 0
  perceivedLoudness := some loud
  gain := 50
  volume := d.volume
  keyLock := d.keyLock
  scratchModeEnabled := d.scratchModeEnabled
  lastUpdateTime := d.lastUpdateTime
  wasPlayingBeforeScratch := false

/-- C10: loading a track preserves the deck fader volume, key-lock flag
and scratch-mode flag, and always resets the preamp gain knob to 50 and
the playback rate to 1, whatever their previous values. -/
theorem loadSongApply_frame (d : DeckState) (song : Song) (dur loud : ℚ)
    (wf : List ℚ) :
    (loadSongApply d song dur loud wf).volume = d.volume ∧
    (loadSongApply d song dur loud wf).keyLock = d.keyLock ∧
    (loadSongApply d song dur loud wf).scratchModeEnabled = d.scratchModeEnabled ∧
    (loadSongApply d song dur loud wf).gain = 50 ∧
    (loadSongApply d song dur loud wf).playbackRate = 1 :=
  ⟨rfl, rfl, rfl, rfl, rfl⟩

/-- Commands of `handleSetLoop` (src/App.tsx:1918): the `in`, `out`,
`exit` and `reloop` string cases, and the `{ beats }` auto-loop object
case. -/
inductive LoopCmd where
  | markIn
  | markOut
  | exitLoop
  | reloop
  | auto (beats : ℚ)

/-- Loop control (`handleSetLoop`, src/App.tsx:1918-1953).  The auto
loop requires a truthy deck BPM, takes `beats` beats of `60 / bpm`
seconds from the current position, and clamps the end to the track
duration; `in` stores the start and clears end and active; `out`
activates only when the current position is strictly past the stored
start; `exit` deactivates; `reloop` reactivates when both bounds are
set. -/
def handleSetLoop (d : DeckState) (cmd : LoopCmd) : DeckState :=
  match cmd with
  | .auto beats =>
    match d.bpm with
    | none => d
    | some b =>
      if b = 0 then d
      else
        let beatDuration := 60 / b
        let loopDuration := beats * beatDuration
        let s := d.currentTime
        let e := min (s + loopDuration) d.duration
        { d with loop := ⟨some s, some e, true⟩ }
  | .markIn => { d with loop := ⟨some d.currentTime, none, false⟩ }
  | .markOut =>
    match d.loop.start with
    | some s =>
      if d.currentTime > s then
        { d with loop := { d.loop with stop := some d.currentTime, active := true } }
      else d
    | none => d
  | .exitLoop => { d with loop := { d.loop with active := false } }
  | .reloop =>
    match d.loop.start, d.loop.stop with
    | some _, some _ => { d with loop := { d.loop with active := true } }
    | _, _ => d

/-- Auto-DJ Loop Out pre-roll (`startTransition`, src/App.tsx:2216-2224):
with a truthy outgoing-deck BPM, lock a 4-beat loop at the current
position, end clamped to the duration. -/
def loopOutPreRoll (d : DeckState) : DeckState :=
  match d.bpm with
  | none => d
  | some b =>
    if b = 0 then d
    else
      let beatDuration := 60 / b
      let loopDuration := 4 * beatDuration
      let s := d.currentTime
      let e := min (s + loopDuration) d.duration
      { d with loop := ⟨some s, some e, true⟩ }

/-- Data-model invariant claimed by the spec: an active loop has both
bounds set and end strictly greater than start. -/
def loopInvariant (l : LoopRegion) : Prop :=
  l.active = true → ∃ s e, l.start = some s ∧ l.stop = some e ∧ s < e

/-- Sample track used to build concrete deck states. -/
def sampleSong : Song :=
  ⟨1, "Artist - Track.mp3", 0, some "8A", some 120, some "House", some 5⟩

/-- Deck whose playhead sits exactly at the full track duration, a
state the Transport Clock reaches when a track plays to its end. -/
def endOfTrackDeck : DeckState where
  song := some sampleSong
  isPlaying := false
  gain := 50
  volume := 3 / 4
  playbackRate := 1
  currentTime := 100
  duration := 100
  platterAngle := 0
  cuePoints := []
  bpm := some 120
  loop := ⟨none, none, false⟩
  waveform := none
  key := some "8A"
  zoom := 1
  viewStart := 0
  perceivedLoudness := some (1 / 10)
  lastUpdateTime := none
  keyLock := false
  scratchModeEnabled := false
  wasPlayingBeforeScratch := false

/-- Same deck with the playhead mid-track. -/
def midTrackDeck : DeckState :=
  { endOfTrackDeck with currentTime := 10 }

/-- Counterexample to C6: at a playhead exactly at the track duration
(BPM 120, duration 100 s), the 4-beat auto-loop activates a loop with
start = end = 100, violating the end-greater-than-start invariant. -/
theorem autoLoop_at_track_end_violates_invariant :
    (handleSetLoop endOfTrackDeck (LoopCmd.auto 4)).loop.active = true ∧
    ¬ loopInvariant (handleSetLoop endOfTrackDeck (LoopCmd.auto 4)).loop := by
  have hloop : (handleSetLoop endOfTrackDeck (LoopCmd.auto 4)).loop =
      ⟨some 100, some 100, true⟩ := by
    norm_num [handleSetLoop, endOfTrackDeck]
  refine ⟨by rw [hloop], ?_⟩
  intro h
  obtain ⟨s, e, hs, he, hlt⟩ := h (by rw [hloop])
  rw [hloop] at hs he
  simp only [Option.some.injEq] at hs he
  rw [← hs, ← he] at hlt
  exact absurd hlt (by norm_num)

/-- C6 (amended): every loop-activating operation preserves the
active-loop invariant provided that, at activation time, the playhead is
strictly before the track duration and the deck BPM (when set) is
positive (for the beat-count auto-loop and the Auto-DJ Loop Out
pre-roll, with a positive beat count), and that the stored bounds
already satisfy end > start (for reloop); at a playhead exactly at the
duration the auto-loop and the pre-roll create a degenerate active loop
with start = end. -/
theorem loop_ops_preserve_invariant_amended (d : DeckState) :
    loopInvariant (handleSetLoop d LoopCmd.markIn).loop ∧
    loopInvariant (handleSetLoop d LoopCmd.exitLoop).loop ∧
    (loopInvariant d.loop → loopInvariant (handleSetLoop d LoopCmd.markOut).loop) ∧
    (loopInvariant d.loop →
      (∀ s e, d.loop.start = some s → d.loop.stop = some e → s < e) →
      loopInvariant (handleSetLoop d LoopCmd.reloop).loop) ∧
    (∀ beats : ℚ, loopInvariant d.loop → (∀ b, d.bpm = some b → 0 < b) →
      0 < beats → d.currentTime < d.duration →
      loopInvariant (handleSetLoop d (LoopCmd.auto beats)).loop) ∧
    (loopInvariant d.loop → (∀ b, d.bpm = some b → 0 < b) →
      d.currentTime < d.duration → loopInvariant (loopOutPreRoll d).loop) := by
  refine ⟨?_, ?_, ?_, ?_, ?_, ?_⟩
  · intro h
    simp [handleSetLoop] at h
  · intro h
    simp [handleSetLoop] at h
  · intro hinv
    rcases hs : d.loop.start with _ | s
    · simpa [handleSetLoop, hs] using hinv
    · by_cases hgt : d.currentTime > s
      · intro _
        refine ⟨s, d.currentTime, ?_, ?_, hgt⟩ <;> simp [handleSetLoop, hs, hgt]
      · simpa [handleSetLoop, hs, hgt] using hinv
  · intro hinv hbounds
    rcases hs : d.loop.start with _ | s <;> rcases he : d.loop.stop with _ | e
    · simpa [handleSetLoop, hs, he] using hinv
    · simpa [handleSetLoop, hs, he] using hinv
    · simpa [handleSetLoop, hs, he] using hinv
    · intro _
      refine ⟨s, e, ?_, ?_, hbounds s e hs he⟩ <;> simp [handleSetLoop, hs, he]
  · intro beats hinv hbpm hbeats hlt
    rcases hb : d.bpm with _ | b
    · simpa [handleSetLoop, hb] using hinv
    · have hbpos : 0 < b := hbpm b hb
      have hb0 : ¬ b = 0 := ne_of_gt hbpos
      intro _
      have hstep : 0 < beats * (60 / b) := by positivity
      refine ⟨d.currentTime, min (d.currentTime + beats * (60 / b)) d.duration,
        ?_, ?_, lt_min (by linarith) hlt⟩ <;> simp [handleSetLoop, hb, hb0]
  · intro hinv hbpm hlt
    rcases hb : d.bpm with _ | b
    · simpa [loopOutPreRoll, hb] using hinv
    · have hbpos : 0 < b := hbpm b hb
      have hb0 : ¬ b = 0 := ne_of_gt hbpos
      intro _
      have hstep : (0 : ℚ) < 4 * (60 / b) := by positivity
      refine ⟨d.currentTime, min (d.currentTime + 4 * (60 / b)) d.duration,
        ?_, ?_, lt_min (by linarith) hlt⟩ <;> simp [loopOutPreRoll, hb, hb0]

/-- Witness for the amended C6: the 4-beat auto-loop on a mid-track
deck yields a valid active loop. -/
theorem loop_ops_preserve_invariant_amended_witness :
    loopInvariant midTrackDeck.loop ∧
    (∀ b, midTrackDeck.bpm = some b → 0 < b) ∧ (0 : ℚ) < 4 ∧
    midTrackDeck.currentTime < midTrackDeck.duration ∧
    loopInvariant (handleSetLoop midTrackDeck (LoopCmd.auto 4)).loop := by
  have hinv : loopInvariant midTrackDeck.loop := by
    intro h
    simp [midTrackDeck, endOfTrackDeck] at h
  have hbpm : ∀ b, midTrackDeck.bpm = some b → 0 < b := by
    intro b hb
    simp only [midTrackDeck, endOfTrackDeck, Option.some.injEq] at hb
    rw [← hb]
    norm_num
  refine ⟨hinv, hbpm, by norm_num, by norm_num [midTrackDeck, endOfTrackDeck], ?_⟩
  exact (loop_ops_preserve_invariant_amended midTrackDeck).2.2.2.2.1 4 hinv hbpm
    (by norm_num) (by norm_num [midTrackDeck, endOfTrackDeck])

/-- Seek (`seekDeck`, src/App.tsx:1761-1777): no-op without a song or
with zero duration (JavaScript truthiness of `deckState.duration`);
otherwise clamps the requested time into [0, duration], recentres the
zoomed view and, for a playing deck, recreates the audio source at the
new position (the graph side is outside this model). -/
def seekDeckState (d : DeckState) (newTime : ℚ) : DeckState :=
  if d.song = none ∨ d.duration = 0 then d
  else
    let time := max 0 (min newTime d.duration)
    let newViewStart :=
      if 1 < d.zoom then
        let visibleFrac := 1 / d.zoom
        let targetFrac := time / d.duration
        max 0 (min (targetFrac - visibleFrac / 2) (1 - visibleFrac))
      else d.viewStart
    { d with currentTime := time, viewStart := newViewStart }

/-- Transport Clock step for one deck (`updateLoop`, src/App.tsx:1844-1883).
Advances the simulated position by elapsed wall time times the playback
rate; when an active loop end is crossed, wraps the position to
`start + ((newTime - end) mod loopLength)` and routes it through
`seekDeck` (the forced reseek of the audio source); otherwise scrolls
the zoomed view when the playhead nears its edge, and stops at the full
duration.  The second component is the reseek target, `some` exactly
when the loop-wrap reseek fires. -/
def updateLoopTick (d : DeckState) (now : ℚ) : DeckState × Option ℚ :=
  if d.isPlaying = false then (d, none)
  else
    match d.lastUpdateTime with
    | none => (d, none)
    | some lu =>
      if lu = 0 then (d, none)
      else
        let elapsed := (now - lu) / 1000
        let newTime := d.currentTime + elapsed * d.playbackRate
        let newAngle := jsRem (d.platterAngle + 2 * d.playbackRate) 360
        let cont := fun (_ : Unit) =>
          let newViewStart :=
            if 1 < d.zoom ∧ 0 < d.duration then
              let visibleFrac := 1 / d.zoom
              let progressFrac := newTime / d.duration
              let viewEndFrac := d.viewStart + visibleFrac
              if progressFrac > viewEndFrac - visibleFrac * (1 / 5) ∨
                  progressFrac < d.viewStart + visibleFrac * (1 / 5) then
                max 0 (min (progressFrac - visibleFrac / 2) (1 - visibleFrac))
              else d.viewStart
            else d.viewStart
          if newTime ≥ d.duration then
            ({ d with isPlaying := false, currentTime := d.duration }, none)
          else
            ({ d with
                currentTime := newTime
                platterAngle := newAngle
                viewStart := newViewStart
                lastUpdateTime := some now }, none)
        match d.loop.start, d.loop.stop with
        | some s, some e =>
          if d.loop.active = true ∧ newTime ≥ e then
            let timeOver := newTime - e
            let wrapped := s + jsRem timeOver (e - s)
            (seekDeckState
              { d with platterAngle := newAngle, lastUpdateTime := some now }
              wrapped, some wrapped)
          else cont ()
        | _, _ => cont ()

theorem jsRem_nonneg_lt (a b : ℚ) (hb : 0 < b) (ha : 0 ≤ a) :
    0 ≤ jsRem a b ∧ jsRem a b < b := by
  have hq : (0 : ℚ) ≤ a / b := div_nonneg ha hb.le
  have hbne : b ≠ 0 := ne_of_gt hb
  have hcancel : b * (a / b) = a := by field_simp
  have heq : jsRem a b = b * Int.fract (a / b) := by
    rw [jsRem, ratTrunc, if_pos hq, Int.fract, mul_sub, hcancel]
  constructor
  · rw [heq]
    exact mul_nonneg hb.le (Int.fract_nonneg _)
  · rw [heq]
    calc b * Int.fract (a / b) < b * 1 :=
          (mul_lt_mul_left hb).mpr (Int.fract_lt_one _)
    _ = b := mul_one b

/-- C4: when a playing deck with an active loop [s, e] advances past the
loop end, the Transport Clock forces a reseek to
`s + ((newTime - e) mod (e - s))` and the resulting position is that
wrapped value, inside [s, e). -/
theorem transport_loop_wrap (d : DeckState) (now lu s e : ℚ)
    (hplay : d.isPlaying = true)
    (hlast : d.lastUpdateTime = some lu) (hlu0 : lu ≠ 0)
    (hloop : d.loop = ⟨some s, some e, true⟩)
    (hse : s < e) (hs0 : 0 ≤ s) (hed : e ≤ d.duration)
    (hsong : d.song ≠ none) (hdur : d.duration ≠ 0)
    (hwrap : d.currentTime + ((now - lu) / 1000) * d.playbackRate ≥ e) :
    (updateLoopTick d now).2 =
      some (s + jsRem (d.currentTime + ((now - lu) / 1000) * d.playbackRate - e)
        (e - s)) ∧
    (updateLoopTick d now).1.currentTime =
      s + jsRem (d.currentTime + ((now - lu) / 1000) * d.playbackRate - e)
        (e - s) ∧
    s ≤ (updateLoopTick d now).1.currentTime ∧
    (updateLoopTick d now).1.currentTime < e := by
  have hrem := jsRem_nonneg_lt
    (d.currentTime + ((now - lu) / 1000) * d.playbackRate - e) (e - s)
    (by linarith) (by linarith)
  set w := s + jsRem (d.currentTime + ((now - lu) / 1000) * d.playbackRate - e)
    (e - s) with hw
  have hws : s ≤ w := by
    rw [hw]
    linarith [hrem.1]
  have hwe : w < e := by
    rw [hw]
    linarith [hrem.2]
  have htick : updateLoopTick d now =
      (seekDeckState
        { d with
            platterAngle := jsRem (d.platterAngle + 2 * d.playbackRate) 360
            lastUpdateTime := some now } w, some w) := by
    simp only [updateLoopTick, hplay, hlast, hloop]
    norm_num [hlu0, hwrap]
  have hseek : (seekDeckState
      { d with
          platterAngle := jsRem (d.platterAngle + 2 * d.playbackRate) 360
          lastUpdateTime := some now } w).currentTime = w := by
    simp only [seekDeckState]
    rw [if_neg]
    · simp only
      have h1 : min w d.duration = w := min_eq_left (by linarith)
      have h2 : max 0 (min w d.duration) = w := by
        rw [h1]
        exact max_eq_right (by linarith)
      exact h2
    · push_neg
      exact ⟨hsong, hdur⟩
  rw [htick]
  refine ⟨rfl, hseek, ?_, ?_⟩
  · rw [hseek]
    exact hws
  · rw [hseek]
    exact hwe

/-- Deck used to witness the loop wrap: loop [10, 14], playhead 14,
advanced one second at rate 1 to simulated time 15. -/
def loopDeck : DeckState :=
  { endOfTrackDeck with
      currentTime := 14
      isPlaying := true
      lastUpdateTime := some 500
      loop := ⟨some 10, some 14, true⟩ }

/-- Witness for C4: the loop [10 s, 14 s] advanced to 15 s reseeks to
11 s, inside [10, 14). -/
theorem transport_loop_wrap_witness :
    (updateLoopTick loopDeck 1500).2 = some 11 ∧
    (updateLoopTick loopDeck 1500).1.currentTime = 11 := by
  have h := transport_loop_wrap loopDeck 1500 500 10 14
    (by norm_num [loopDeck, endOfTrackDeck])
    (by norm_num [loopDeck, endOfTrackDeck])
    (by norm_num)
    (by norm_num [loopDeck, endOfTrackDeck])
    (by norm_num) (by norm_num) (by norm_num [loopDeck, endOfTrackDeck])
    (by simp [loopDeck, endOfTrackDeck])
    (by norm_num [loopDeck, endOfTrackDeck])
    (by norm_num [loopDeck, endOfTrackDeck])
  have hval : (10 : ℚ) + jsRem (loopDeck.currentTime +
      ((1500 - 500) / 1000) * loopDeck.playbackRate - 14) (14 - 10) = 11 := by
    norm_num [loopDeck, endOfTrackDeck, jsRem, ratTrunc]
  exact ⟨by rw [h.1, hval], by rw [h.2.1, hval]⟩

/-- MIDI mappings are JavaScript objects with string keys; they are
modelled as association lists in insertion order.  A forward map holds
(control, messageId) entries, the reverse index (messageId, control)
entries. -/
abbrev MidiMap := List (String × String)

/-- Property read `obj[k]` on an object modelled as an association
list: the first entry with the key, if any. -/
def objGet : MidiMap → String → Option String
  | [], _ => none
  | p :: t, k => if p.1 = k then some p.2 else objGet t k

/-- Property write `obj[k] = v`: updates the existing entry in place
(JavaScript keeps the original insertion position) or appends a new
entry. -/
def objSet : MidiMap → String → String → MidiMap
  | [], k, v => [(k, v)]
  | p :: t, k, v => if p.1 = k then (k, v) :: t else p :: objSet t k v

/-- Learn-mode capture (`handleMidiMessage`, src/App.tsx:1324-1336):
every existing mapping whose value is the incoming message identifier is
deleted, then the awaiting control is bound to that identifier. -/
def midiLearn (m : MidiMap) (ctl msg : String) : MidiMap :=
  objSet (m.filter (fun p => p.2 != msg)) ctl msg

/-- Reverse-index rebuild (midiMapping persistence useEffect,
src/App.tsx:1407-1421): iterate the forward map in order and assign
`reverse[messageId] = control`; a later entry with the same message
identifier overwrites an earlier one. -/
def buildReverse (m : MidiMap) : MidiMap :=
  m.foldl (fun acc p => objSet acc p.2 p.1) []

/-- Keys of a JavaScript object are unique. -/
def keysNodup (m : MidiMap) : Prop := (m.map Prod.fst).Nodup

theorem objGet_objSet (l : MidiMap) (k v q : String) :
    objGet (objSet l k v) q = if q = k then some v else objGet l q := by
  induction l with
  | nil =>
    by_cases hq : q = k
    · simp [objSet, objGet, hq]
    · have hkq : ¬ k = q := fun h => hq h.symm
      simp [objSet, objGet, hq, hkq]
  | cons p t ih =>
    by_cases hp : p.1 = k
    · simp only [objSet, if_pos hp]
      by_cases hq : q = k
      · simp [objGet, hq]
      · have hkq : ¬ k = q := fun h => hq h.symm
        have hpq : ¬ p.1 = q := by rw [hp]; exact hkq
        simp [objGet, hkq, hq, hpq]
    · simp only [objSet, if_neg hp]
      by_cases hq : p.1 = q
      · have hqk : ¬ q = k := fun h => hp (hq.trans h)
        simp [objGet, hq, hqk]
      · simp only [objGet, if_neg hq]
        rw [ih]

theorem mem_keys_objSet (l : MidiMap) (k v q : String) :
    q ∈ (objSet l k v).map Prod.fst ↔ q ∈ l.map Prod.fst ∨ q = k := by
  induction l with
  | nil => simp [objSet, eq_comm]
  | cons p t ih =>
    by_cases hp : p.1 = k
    · simp only [objSet, if_pos hp, List.map_cons, List.mem_cons]
      constructor
      · rintro (h | h)
        · exact Or.inr h
        · exact Or.inl (Or.inr h)
      · rintro ((h | h) | h)
        · exact Or.inl (h.trans hp)
        · exact Or.inr h
        · exact Or.inl h
    · simp only [objSet, if_neg hp, List.map_cons, List.mem_cons, ih]
      tauto

theorem keysNodup_objSet (l : MidiMap) (k v : String) (h : keysNodup l) :
    keysNodup (objSet l k v) := by
  induction l with
  | nil => simp [objSet, keysNodup]
  | cons p t ih =>
    simp only [keysNodup, List.map_cons, List.nodup_cons] at h
    by_cases hp : p.1 = k
    · simp only [objSet, if_pos hp, keysNodup, List.map_cons, List.nodup_cons]
      exact ⟨by rw [← hp]; exact h.1, h.2⟩
    · simp only [objSet, if_neg hp, keysNodup, List.map_cons, List.nodup_cons]
      refine ⟨?_, ih h.2⟩
      rw [mem_keys_objSet]
      rintro (hmem | hmem)
      · exact h.1 hmem
      · exact hp hmem

theorem keysNodup_filter (l : MidiMap) (pred : String × String → Bool)
    (h : keysNodup l) : keysNodup (l.filter pred) :=
  List.Nodup.sublist ((List.filter_sublist l).map Prod.fst) h

theorem keysNodup_midiLearn (m : MidiMap) (ctl msg : String) (h : keysNodup m) :
    keysNodup (midiLearn m ctl msg) :=
  keysNodup_objSet _ _ _ (keysNodup_filter m _ h)

theorem objGet_eq_none_iff (l : MidiMap) (q : String) :
    objGet l q = none ↔ q ∉ l.map Prod.fst := by
  induction l with
  | nil => simp [objGet]
  | cons p t ih =>
    by_cases hp : p.1 = q
    · simp [objGet, hp]
    · rw [List.map_cons, List.mem_cons]
      simp only [objGet, if_neg hp]
      rw [ih]
      constructor
      · intro h
        rintro (he | hm)
        · exact hp he.symm
        · exact h hm
      · intro h hm
        exact h (Or.inr hm)

theorem objGet_of_mem_nodup (l : MidiMap) (c v : String)
    (hmem : (c, v) ∈ l) (hnd : keysNodup l) : objGet l c = some v := by
  induction l with
  | nil => simp at hmem
  | cons p t ih =>
    simp only [keysNodup, List.map_cons, List.nodup_cons] at hnd
    rcases List.mem_cons.mp hmem with h | h
    · rw [← h]
      simp [objGet]
    · have hc : c ∈ t.map Prod.fst := List.mem_map.mpr ⟨(c, v), h, rfl⟩
      have hp : ¬ p.1 = c := fun he => hnd.1 (he ▸ hc)
      simp only [objGet, if_neg hp]
      exact ih h hnd.2

theorem objGet_filter_value_none (l : MidiMap) (c m : String)
    (hnd : keysNodup l) (hget : objGet l c = some m) :
    objGet (l.filter (fun p => p.2 != m)) c = none := by
  rw [objGet_eq_none_iff]
  intro hmem
  obtain ⟨p, hpmem, hpfst⟩ := List.mem_map.mp hmem
  have hpl : p ∈ l := (List.mem_filter.mp hpmem).1
  have hpv : (p.2 != m) = true := (List.mem_filter.mp hpmem).2
  have : objGet l c = some p.2 := by
    have : (c, p.2) ∈ l := by
      have : p = (c, p.2) := by
        rw [← hpfst]
      rw [← this]
      exact hpl
    exact objGet_of_mem_nodup l c p.2 this hnd
  rw [hget] at this
  have hm : p.2 = m := by
    injection this.symm
  rw [hm] at hpv
  simp at hpv

theorem objGet_foldRebuild (m : MidiMap) (acc : MidiMap) (msg : String) :
    objGet (m.foldl (fun acc p => objSet acc p.2 p.1) acc) msg =
      (m.reverse.find? (fun p => p.2 == msg)).elim (objGet acc msg)
        (fun p => some p.1) := by
  induction m using List.reverseRecOn with
  | nil => simp
  | append_singleton l p ih =>
    rw [List.foldl_append, List.foldl_cons, List.foldl_nil, objGet_objSet,
      List.reverse_append]
    simp only [List.reverse_singleton, List.singleton_append]
    by_cases h : msg = p.2
    · rw [List.find?_cons_of_pos _ (by simp [h])]
      simp [h]
    · have hne : ¬ p.2 = msg := fun he => h he.symm
      rw [List.find?_cons_of_neg _ (by simp [hne])]
      rw [if_neg h]
      exact ih

theorem buildReverse_lookup (m : MidiMap) (msg : String) :
    objGet (buildReverse m) msg =
      (m.reverse.find? (fun p => p.2 == msg)).elim none (fun p => some p.1) := by
  unfold buildReverse
  rw [objGet_foldRebuild]
  rfl

theorem buildReverse_no_stale (m : MidiMap) (hnd : keysNodup m) (msg c : String)
    (h : objGet (buildReverse m) msg = some c) : objGet m c = some msg := by
  rw [buildReverse_lookup] at h
  rcases hf : m.reverse.find? (fun p => p.2 == msg) with _ | p
  · rw [hf] at h
    simp [Option.elim] at h
  · rw [hf] at h
    simp only [Option.elim] at h
    have hp1 : p.1 = c := by injection h
    have hpred := List.find?_some hf
    have hmem : p ∈ m.reverse := List.mem_of_find?_eq_some hf
    rw [List.mem_reverse] at hmem
    have hp2 : p.2 = msg := by simpa using hpred
    have hpc : p = (c, msg) := by
      cases p
      simp_all
    rw [hpc] at hmem
    exact objGet_of_mem_nodup m c msg hmem hnd

theorem buildReverse_rebuild_idem (m : MidiMap) (msg : String) :
    objGet (m.foldl (fun acc p => objSet acc p.2 p.1) (buildReverse m)) msg =
      objGet (buildReverse m) msg := by
  rw [objGet_foldRebuild]
  rcases hf : m.reverse.find? (fun p => p.2 == msg) with _ | p
  · rw [hf]
    simp
  · rw [hf, buildReverse_lookup, hf]
    simp

theorem objGet_midiLearn_self (m : MidiMap) (ctl msg : String) :
    objGet (midiLearn m ctl msg) ctl = some msg := by
  unfold midiLearn
  rw [objGet_objSet]
  simp

theorem objGet_midiLearn_other (m : MidiMap) (ctl msg q : String) (h : q ≠ ctl) :
    objGet (midiLearn m ctl msg) q = objGet (m.filter (fun p => p.2 != msg)) q := by
  unfold midiLearn
  rw [objGet_objSet, if_neg h]

/-- C5: learning control X to message M and then control Y to the same
message M leaves X unmapped and Y mapped to M (at most one logical
control per physical message); the reverse index rebuilt from the
resulting forward map has no stale entries (every reverse binding is
confirmed by the forward map), and re-running the rebuild step over the
already-built reverse index changes nothing. -/
theorem midi_learn_exclusive_and_reverse_consistent (f : MidiMap) (X Y M : String)
    (hXY : X ≠ Y) (hnd : keysNodup f) :
    objGet (midiLearn (midiLearn f X M) Y M) X = none ∧
    objGet (midiLearn (midiLearn f X M) Y M) Y = some M ∧
    (∀ g : MidiMap, keysNodup g → ∀ msg c,
      objGet (buildReverse g) msg = some c → objGet g c = some msg) ∧
    (∀ (g : MidiMap) (msg : String),
      objGet (g.foldl (fun acc p => objSet acc p.2 p.1) (buildReverse g)) msg =
        objGet (buildReverse g) msg) := by
  have hnd1 : keysNodup (midiLearn f X M) := keysNodup_midiLearn f X M hnd
  refine ⟨?_, objGet_midiLearn_self _ Y M, ?_, ?_⟩
  · rw [objGet_midiLearn_other _ Y M X hXY]
    exact objGet_filter_value_none _ X M hnd1 (objGet_midiLearn_self f X M)
  · intro g hg msg c
    exact buildReverse_no_stale g hg msg c
  · intro g msg
    exact buildReverse_rebuild_idem g msg

/-- Witness for C5: learning deckA_play then deckB_play to the same
note-on message on an empty mapping. -/
theorem midi_learn_exclusive_witness :
    ("deckA_play" : String) ≠ "deckB_play" ∧ keysNodup ([] : MidiMap) ∧
    objGet (midiLearn (midiLearn [] "deckA_play" "note_on_1_60")
      "deckB_play" "note_on_1_60") "deckA_play" = none ∧
    objGet (midiLearn (midiLearn [] "deckA_play" "note_on_1_60")
      "deckB_play" "note_on_1_60") "deckB_play" = some "note_on_1_60" := by
  have h := midi_learn_exclusive_and_reverse_consistent []
    "deckA_play" "deckB_play" "note_on_1_60" (by decide) (by simp [keysNodup])
  exact ⟨by decide, by simp [keysNodup], h.1, h.2.1⟩

/-- Beat pad entry (interface `Beat`, src/App.tsx:3205: `Song` plus the
optional decoded buffers).  The browser handles (`file`, `audioBuffer`,
`arrayBuffer`) are opaque tokens, `Option` so that stripped entries can
drop them. -/
structure Beat where
  id : ℕ
  name : String
  file : Option ℕ
  key : Option String
  bpm : Option ℚ
  genre : Option String
  energy : Option ℚ
  audioBuffer : Option ℕ
  arrayBuffer : Option ℕ
  deriving DecidableEq, Repr

/-- Destructuring `const { file, audioBuffer, ...storableBeat } = beat`
(src/App.tsx:68): the stored copy loses `file` and `audioBuffer` (and
keeps `arrayBuffer`). -/
def stripBeat (b : Beat) : Beat :=
  { b with file := none, audioBuffer := none }

/-- Row of the object store (src/App.tsx:69-74). -/
structure BeatRow where
  id : String
  category : String
  index : ℕ
  beat : Beat
  deriving DecidableEq, Repr

/-- Beat-kit state: categories with their 12 pad slots, in record
insertion order. -/
abbrev BeatsState := List (String × List (Option Beat))

/-- Save path (`saveBeatsToDB`, src/App.tsx:54-78): the store is
cleared, then for every category and every populated pad a row
`{ id: category-index, category, index, beat: storableBeat }` is added.
The returned list is the full store content after the save. -/
def saveBeatsToDB (beats : BeatsState) : List BeatRow :=
  (beats.map (fun cat =>
    cat.2.enum.filterMap (fun iv =>
      iv.2.map (fun b =>
        ({ id := cat.1 ++ "-" ++ toString iv.1
           category := cat.1
           index := iv.1
           beat := stripBeat b } : BeatRow))))).flatten

/-- The empty beat-kit state: three categories of 12 empty slots. -/
def defaultBeats : BeatsState :=
  [("drum", List.replicate 12 none), ("tuning", List.replicate 12 none),
   ("instrumental", List.replicate 12 none)]

/-- Load path (`loadBeatsFromDB`, src/App.tsx:80-115): an absent or
failing store (`none`) yields the three empty categories; otherwise
every row whose category exists in the fresh default state is written
into its slot.  JavaScript array assignment past index 11 would extend
the array; such rows never come from `saveBeatsToDB` of a 12-slot
state, and `List.set` ignores them. -/
def loadBeatsFromDB (rows : Option (List BeatRow)) : BeatsState :=
  match rows with
  | none => defaultBeats
  | some rs =>
    rs.foldl (fun st row =>
      if st.any (fun c => c.1 == row.category) then
        st.map (fun c =>
          if c.1 = row.category then (c.1, c.2.set row.index (some row.beat))
          else c)
      else st) defaultBeats

/-- A beats state with the non-storable fields stripped from every
entry. -/
def stripState (st : BeatsState) : BeatsState :=
  st.map (fun c => (c.1, c.2.map (Option.map stripBeat)))

/-- State with a single populated pad at drum slot i and two empty
categories. -/
def oneBeatState (i : ℕ) (b : Beat) : BeatsState :=
  [("drum", (List.replicate 12 (none : Option Beat)).set i (some b)),
   ("tuning", List.replicate 12 none), ("instrumental", List.replicate 12 none)]

/-- C9: saving and reloading a beat-kit state with one populated pad
and two empty categories reproduces the identical structure with the
non-storable fields stripped from the populated entry, and loading from
an absent or failing store yields exactly three categories of 12 empty
slots. -/
theorem beatkit_save_load_roundtrip (b : Beat) (i : ℕ) (hi : i < 12) :
    loadBeatsFromDB (some (saveBeatsToDB (oneBeatState i b))) =
      stripState (oneBeatState i b) ∧
    loadBeatsFromDB none = defaultBeats := by
  refine ⟨?_, rfl⟩
  interval_cases i <;> rfl

/-- Concrete beat used for the C9 witness. -/
def sampleBeat : Beat :=
  ⟨1, "kick", some 5, none, none, some "drum", none, some 7, some 9⟩

/-- Witness for C9 at drum slot 0. -/
theorem beatkit_save_load_roundtrip_witness :
    (0 : ℕ) < 12 ∧
    loadBeatsFromDB (some (saveBeatsToDB (oneBeatState 0 sampleBeat))) =
      stripState (oneBeatState 0 sampleBeat) :=
  ⟨by decide, (beatkit_save_load_roundtrip sampleBeat 0 (by decide)).1⟩

/-- Matcher for the tail of the separator regex in `getArtistFromName`
(src/App.tsx:222-225): after at least one whitespace character, the rest
must continue with optional whitespace, then a dash, then at least one
whitespace character and at least one further character. -/
def sepRest : List Char → Bool
  | [] => false
  | '-' :: a :: _ :: _ => a.isWhitespace
  | '-' :: _ => false
  | c :: rest => c.isWhitespace && sepRest rest

/-- Matcher for the separator-and-title part of the artist regex
`^(.*?)\s+-\s+.+$`: whitespace run, dash, whitespace run, non-empty
remainder. -/
def sepMatch : List Char → Bool
  | [] => false
  | c :: rest => c.isWhitespace && sepRest rest

/-- Lazy scan of the regex `^(.*?)\s+-\s+.+$`: the shortest prefix
followed by a separator match is the captured group. -/
def getArtistChars : List Char → List Char → Option (List Char)
  | _, [] => none
  | acc, c :: rest =>
    if sepMatch (c :: rest) then some acc.reverse
    else getArtistChars (c :: acc) rest

/-- Whitespace trim on both ends, as JavaScript `trim()`. -/
def trimChars (cs : List Char) : List Char :=
  ((cs.dropWhile Char.isWhitespace).reverse.dropWhile Char.isWhitespace).reverse

/-- Lowercasing, as JavaScript `toLowerCase()` on ASCII names. -/
def strToLower (s : String) : String :=
  String.mk (s.data.map Char.toLower)

/-- Artist extraction (`getArtistFromName`, src/App.tsx:222-225):
`name.match(/^(.*?)\s+-\s+.+$/)`, returning the trimmed first capture
group, or `none` when the pattern does not match. -/
def getArtistFromName (name : String) : Option String :=
  (getArtistChars [] name.data).map (fun cs => String.mk (trimChars cs))

/-- Energy-flow modes of the Auto-DJ settings (src/App.tsx:3277). -/
inductive EnergyFlow where
  | any
  | maintain
  | increase
  | decrease
  deriving DecidableEq, Repr

/-- Track-source modes of the Auto-DJ settings (src/App.tsx:3266). -/
inductive PlaylistSource where
  | library
  | queues
  deriving DecidableEq, Repr

/-- The Auto-DJ settings fields read by `getNextTrack`
(`AutoDjSettings`, src/App.tsx:3262-3278); the transition-related
fields are not consulted by track selection and are omitted. -/
structure AutoDjSettings where
  playlistSource : PlaylistSource
  shuffle : Bool
  harmonicMix : Bool
  genreMatch : Bool
  bpmMatchEnabled : Bool
  bpmMatchRange : ℚ
  avoidRepeatingArtist : Bool
  energyFlow : EnergyFlow
  deriving DecidableEq, Repr

/-- JavaScript truthiness of an optional number: 0, null and undefined
are falsy. -/
def truthyNum : Option ℚ → Bool
  | none => false
  | some q => q != 0

/-- JavaScript truthiness of an optional string: the empty string, null
and undefined are falsy. -/
def truthyStr : Option String → Bool
  | none => false
  | some s => s != ""

/-- Tiered fallback pool construction (`getNextTrack`,
src/App.tsx:2031-2062).  Tier 1: tracks not in history and different
from the current and avoided ids.  Tier 2 (empty tier 1, more than one
library track): tracks outside the most recent half of the history,
also excluding truthy current/avoid ids.  Tier 3 (still empty, more
than one track): anything but current/avoid.  Tier 4: anything but
avoid, or the whole library. -/
def tierPool (lib hist : List Song) (curId avoid : Option ℕ) : List Song :=
  let historyIds := hist.map Song.id
  let p1 := lib.filter (fun t =>
    !(historyIds.contains t.id) && !(curId == some t.id) && !(avoid == some t.id))
  let p2 :=
    if p1.isEmpty && decide (1 < lib.length) then
      let recentCount := (hist.length + 1) / 2
      let recentIds := (hist.take recentCount).map Song.id
        ++ (match curId with
            | some c => if c ≠ 0 then [c] else []
            | none => [])
        ++ (match avoid with
            | some a => if a ≠ 0 then [a] else []
            | none => [])
      lib.filter (fun t => !(recentIds.contains t.id))
    else p1
  let p3 :=
    if p2.isEmpty && decide (1 < lib.length) then
      lib.filter (fun t => !(curId == some t.id) && !(avoid == some t.id))
    else p2
  if p3.isEmpty then
    let p4 := lib.filter (fun t => !(avoid == some t.id))
    if p4.isEmpty then lib else p4
  else p3

/-- Energy-flow filter predicate (src/App.tsx:2074-2082): songs without
truthy energy data pass; otherwise Maintain keeps energies within 2 of
the current one, Increase strictly above, Decrease strictly below. -/
def energyPred (flow : EnergyFlow) (ce : ℚ) (t : Song) : Bool :=
  match t.energy with
  | none => true
  | some te =>
    if te = 0 then true
    else
      match flow with
      | .maintain => decide (|te - ce| ≤ 2)
      | .increase => decide (ce < te)
      | .decrease => decide (te < ce)
      | .any => true

/-- Artist-repeat filter predicate (src/App.tsx:2090-2093): songs with
no truthy artist pass; otherwise the lowercased artists must differ. -/
def artistPred (ca : String) (t : Song) : Bool :=
  match getArtistFromName t.name with
  | none => true
  | some a => if a = "" then true else strToLower a != strToLower ca

/-- BPM-window filter predicate (src/App.tsx:2102): requires truthy BPM
within [bpm - range, bpm + range]. -/
def bpmPred (b r : ℚ) (t : Song) : Bool :=
  match t.bpm with
  | none => false
  | some tb => tb != 0 && decide (b - r ≤ tb) && decide (tb ≤ b + r)

/-- Exact-genre filter predicate (src/App.tsx:2109). -/
def genrePred (g : String) (t : Song) : Bool := t.genre == some g

/-- Harmonic-key filter predicate (src/App.tsx:2116): requires a truthy
key among the compatible keys. -/
def harmonicPred (compat : List String) (t : Song) : Bool :=
  match t.key with
  | none => false
  | some tk => tk != "" && compat.contains tk

/-- Energy-flow soft filter as written in the source
(src/App.tsx:2071-2084): guarded by a non-Any setting and a truthy
current energy, and replacing the pool only when matches exist. -/
def energyStepSrc (s : AutoDjSettings) (current : Option Song)
    (pool : List Song) : List Song :=
  match current with
  | some song =>
    match song.energy with
    | some ce =>
      if s.energyFlow ≠ EnergyFlow.any ∧ ce ≠ 0 then
        let m := pool.filter (energyPred s.energyFlow ce)
        if 0 < m.length then m else pool
      else pool
    | none => pool
  | none => pool

/-- Artist-repeat soft filter (src/App.tsx:2086-2096). -/
def artistStepSrc (s : AutoDjSettings) (current : Option Song)
    (pool : List Song) : List Song :=
  match current with
  | some song =>
    if s.avoidRepeatingArtist = true ∧ song.name ≠ "" then
      match getArtistFromName song.name with
      | some ca =>
        if ca ≠ "" then
          let m := pool.filter (artistPred ca)
          if 0 < m.length then m else pool
        else pool
      | none => pool
    else pool
  | none => pool

/-- BPM-window soft filter (src/App.tsx:2098-2104). -/
def bpmStepSrc (s : AutoDjSettings) (current : Option Song)
    (pool : List Song) : List Song :=
  match current with
  | some song =>
    match song.bpm with
    | some b =>
      if s.bpmMatchEnabled = true ∧ b ≠ 0 then
        let m := pool.filter (bpmPred b s.bpmMatchRange)
        if 0 < m.length then m else pool
      else pool
    | none => pool
  | none => pool

/-- Exact-genre soft filter (src/App.tsx:2106-2111). -/
def genreStepSrc (s : AutoDjSettings) (current : Option Song)
    (pool : List Song) : List Song :=
  match current with
  | some song =>
    match song.genre with
    | some g =>
      if s.genreMatch = true ∧ g ≠ "" then
        let m := pool.filter (genrePred g)
        if 0 < m.length then m else pool
      else pool
    | none => pool
  | none => pool

/-- Harmonic-key soft filter (src/App.tsx:2113-2118). -/
def harmonicStepSrc (s : AutoDjSettings) (current : Option Song)
    (pool : List Song) : List Song :=
  match current with
  | some song =>
    match song.key with
    | some k =>
      if s.harmonicMix = true ∧ k ≠ "" then
        let m := pool.filter (harmonicPred (getCompatibleKeys k))
        if 0 < m.length then m else pool
      else pool
    | none => pool
  | none => pool

/-- The soft criteria filtering block of `getNextTrack`
(src/App.tsx:2068-2118), in source order: energy flow, artist repeat,
BPM window, genre, harmonic key. -/
def applyCriteria (s : AutoDjSettings) (current : Option Song)
    (pool : List Song) : List Song :=
  harmonicStepSrc s current
    (genreStepSrc s current
      (bpmStepSrc s current
        (artistStepSrc s current
          (energyStepSrc s current pool))))

/-- Sequential-order walk of the non-shuffle final selection
(src/App.tsx:2132-2137): starting just after the current index, the
first library track (circularly) whose id is found in the pool. -/
def seqWalk (lib pool : List Song) (ci : ℕ) : Option Song :=
  (List.range lib.length).findSome? (fun j =>
    match lib[(ci + j + 1) % lib.length]? with
    | none => none
    | some t => pool.find? (fun p => p.id == t.id))

/-- Final pick (src/App.tsx:2123-2141): uniform random pool member when
shuffle is on (the random draw `Math.floor(Math.random() * length)` is
modelled by `rand % length`), otherwise the sequential walk from the
current track with fallback to the first pool member. -/
def finalSelect (s : AutoDjSettings) (lib : List Song) (curId : Option ℕ)
    (pool : List Song) (rand : ℕ) : Option Song :=
  if s.shuffle = true then pool[rand % pool.length]?
  else
    match curId.bind (fun cid => lib.findIdx? (fun t => t.id == cid)) with
    | some ci =>
      match seqWalk lib pool ci with
      | some m => some m
      | none => pool.head?
    | none => pool.head?

/-- Auto-DJ next-track selection (`getNextTrack`, src/App.tsx:2014-2142).
With queue source and a non-empty opposite queue the queue head is
returned; an empty library yields null; otherwise the tiered pool is
built, the soft criteria are applied (falling back to the tiered pool
when they filter everything out), and the final pick is made. -/
def getNextTrack (s : AutoDjSettings) (lib hist queue : List Song)
    (current : Option Song) (avoid : Option ℕ) (rand : ℕ) : Option Song :=
  if s.playlistSource = PlaylistSource.queues ∧ queue ≠ [] then queue.head?
  else if lib = [] then none
  else
    let pool := tierPool lib hist (current.map Song.id) avoid
    if pool = [] then none
    else
      let filtered := applyCriteria s current pool
      let finalPool := if 0 < filtered.length then filtered else pool
      finalSelect s lib (current.map Song.id) finalPool rand

/-- Soft criteria step as the spec words it: a filter is applied only
when its guard holds and only if it yields a non-empty narrowed set;
otherwise it is skipped and the pool from before the filter is kept. -/
def softStep (enabled : Bool) (p : Song → Bool) (pool : List Song) : List Song :=
  if enabled then
    let m := pool.filter p
    if m.isEmpty then pool else m
  else pool

/-- Guard of the energy-flow filter: setting not Any, truthy current
energy. -/
def energyGuard (s : AutoDjSettings) (current : Option Song) : Bool :=
  (s.energyFlow != EnergyFlow.any) && truthyNum (current.bind Song.energy)

/-- Energy-flow predicate against the current track energy. -/
def energyPredOf (s : AutoDjSettings) (current : Option Song) : Song → Bool :=
  energyPred s.energyFlow ((current.bind Song.energy).getD 0)

/-- Guard of the artist-repeat filter: setting on, truthy current track
name, truthy extracted artist. -/
def artistGuard (s : AutoDjSettings) (current : Option Song) : Bool :=
  s.avoidRepeatingArtist && truthyStr (current.map Song.name) &&
    truthyStr (current.bind (fun song => getArtistFromName song.name))

/-- Artist-repeat predicate against the current artist. -/
def artistPredOf (current : Option Song) : Song → Bool :=
  artistPred ((current.bind (fun song => getArtistFromName song.name)).getD "")

/-- Guard of the BPM-window filter: setting on, truthy current BPM. -/
def bpmGuard (s : AutoDjSettings) (current : Option Song) : Bool :=
  s.bpmMatchEnabled && truthyNum (current.bind Song.bpm)

/-- BPM-window predicate against the current BPM. -/
def bpmPredOf (s : AutoDjSettings) (current : Option Song) : Song → Bool :=
  bpmPred ((current.bind Song.bpm).getD 0) s.bpmMatchRange

/-- Guard of the genre filter: setting on, truthy current genre. -/
def genreGuard (s : AutoDjSettings) (current : Option Song) : Bool :=
  s.genreMatch && truthyStr (current.bind Song.genre)

/-- Genre predicate against the current genre. -/
def genrePredOf (current : Option Song) : Song → Bool :=
  genrePred ((current.bind Song.genre).getD "")

/-- Guard of the harmonic filter: setting on, truthy current key. -/
def harmonicGuard (s : AutoDjSettings) (current : Option Song) : Bool :=
  s.harmonicMix && truthyStr (current.bind Song.key)

/-- Harmonic predicate against the compatible keys of the current
key. -/
def harmonicPredOf (current : Option Song) : Song → Bool :=
  harmonicPred (getCompatibleKeys ((current.bind Song.key).getD ""))

/-- The five soft criteria as the spec describes them: generic
skip-if-empty steps composed in the order energy flow, artist repeat,
BPM window, genre, harmonic key. -/
def applyCriteriaSpec (s : AutoDjSettings) (current : Option Song)
    (pool : List Song) : List Song :=
  softStep (harmonicGuard s current) (harmonicPredOf current)
    (softStep (genreGuard s current) (genrePredOf current)
      (softStep (bpmGuard s current) (bpmPredOf s current)
        (softStep (artistGuard s current) (artistPredOf current)
          (softStep (energyGuard s current) (energyPredOf s current) pool))))

theorem lengthPos_ite_eq_isEmpty_ite (m pool : List Song) :
    (if 0 < m.length then m else pool) = (if m.isEmpty then pool else m) := by
  cases m <;> simp

theorem energyStepSrc_eq_softStep (s : AutoDjSettings) (current : Option Song)
    (pool : List Song) :
    energyStepSrc s current pool =
      softStep (energyGuard s current) (energyPredOf s current) pool := by
  rcases current with _ | song
  · simp [energyStepSrc, softStep, energyGuard, truthyNum]
  · rcases he : song.energy with _ | ce
    · simp [energyStepSrc, softStep, energyGuard, truthyNum, he]
    · by_cases hflow : s.energyFlow = EnergyFlow.any
      · simp [energyStepSrc, softStep, energyGuard, truthyNum, he, hflow]
      · by_cases hce : ce = 0
        · simp [energyStepSrc, softStep, energyGuard, truthyNum, he, hflow, hce]
        · simp [energyStepSrc, softStep, energyGuard, energyPredOf, truthyNum,
            he, hflow, hce, lengthPos_ite_eq_isEmpty_ite]

theorem artistStepSrc_eq_softStep (s : AutoDjSettings) (current : Option Song)
    (pool : List Song) :
    artistStepSrc s current pool =
      softStep (artistGuard s current) (artistPredOf current) pool := by
  rcases current with _ | song
  · simp [artistStepSrc, softStep, artistGuard, truthyStr]
  · by_cases hav : s.avoidRepeatingArtist = true
    · by_cases hname : song.name = ""
      · simp [artistStepSrc, softStep, artistGuard, truthyStr, hav, hname]
      · rcases ha : getArtistFromName song.name with _ | ca
        · simp [artistStepSrc, softStep, artistGuard, truthyStr, hav, hname, ha]
        · by_cases hca : ca = ""
          · simp [artistStepSrc, softStep, artistGuard, truthyStr, hav, hname,
              ha, hca]
          · simp [artistStepSrc, softStep, artistGuard, artistPredOf, truthyStr,
              hav, hname, ha, hca, lengthPos_ite_eq_isEmpty_ite]
    · simp [artistStepSrc, softStep, artistGuard, truthyStr, hav]

theorem bpmStepSrc_eq_softStep (s : AutoDjSettings) (current : Option Song)
    (pool : List Song) :
    bpmStepSrc s current pool =
      softStep (bpmGuard s current) (bpmPredOf s current) pool := by
  rcases current with _ | song
  · simp [bpmStepSrc, softStep, bpmGuard, truthyNum]
  · rcases hb : song.bpm with _ | b
    · simp [bpmStepSrc, softStep, bpmGuard, truthyNum, hb]
    · by_cases hen : s.bpmMatchEnabled = true
      · by_cases hb0 : b = 0
        · simp [bpmStepSrc, softStep, bpmGuard, truthyNum, hb, hen, hb0]
        · simp [bpmStepSrc, softStep, bpmGuard, bpmPredOf, truthyNum, hb, hen,
            hb0, lengthPos_ite_eq_isEmpty_ite]
      · simp [bpmStepSrc, softStep, bpmGuard, truthyNum, hb, hen]

theorem genreStepSrc_eq_softStep (s : AutoDjSettings) (current : Option Song)
    (pool : List Song) :
    genreStepSrc s current pool =
      softStep (genreGuard s current) (genrePredOf current) pool := by
  rcases current with _ | song
  · simp [genreStepSrc, softStep, genreGuard, truthyStr]
  · rcases hg : song.genre with _ | g
    · simp [genreStepSrc, softStep, genreGuard, truthyStr, hg]
    · by_cases hen : s.genreMatch = true
      · by_cases hg0 : g = ""
        · simp [genreStepSrc, softStep, genreGuard, truthyStr, hg, hen, hg0]
        · simp [genreStepSrc, softStep, genreGuard, genrePredOf, truthyStr, hg,
            hen, hg0, lengthPos_ite_eq_isEmpty_ite]
      · simp [genreStepSrc, softStep, genreGuard, truthyStr, hg, hen]

theorem harmonicStepSrc_eq_softStep (s : AutoDjSettings) (current : Option Song)
    (pool : List Song) :
    harmonicStepSrc s current pool =
      softStep (harmonicGuard s current) (harmonicPredOf current) pool := by
  rcases current with _ | song
  · simp [harmonicStepSrc, softStep, harmonicGuard, truthyStr]
  · rcases hk : song.key with _ | k
    · simp [harmonicStepSrc, softStep, harmonicGuard, truthyStr, hk]
    · by_cases hen : s.harmonicMix = true
      · by_cases hk0 : k = ""
        · simp [harmonicStepSrc, softStep, harmonicGuard, truthyStr, hk, hen, hk0]
        · simp [harmonicStepSrc, softStep, harmonicGuard, harmonicPredOf,
            truthyStr, hk, hen, hk0, lengthPos_ite_eq_isEmpty_ite]
      · simp [harmonicStepSrc, softStep, harmonicGuard, truthyStr, hk, hen]

/-- C2: the soft-criteria block equals the spec chain of skip-if-empty
steps applied in exactly the order energy flow, artist repeat, BPM
window, genre, harmonic key; a step whose narrowed set is empty keeps
the pool from before it, an enabled step with a non-empty narrowed set
replaces the pool by it, and no step can empty a non-empty pool. -/
theorem soft_criteria_order_and_skip (s : AutoDjSettings)
    (current : Option Song) (pool : List Song) :
    applyCriteria s current pool = applyCriteriaSpec s current pool ∧
    (∀ (enabled : Bool) (p : Song → Bool) (q : List Song),
      q.filter p = [] → softStep enabled p q = q) ∧
    (∀ (p : Song → Bool) (q : List Song),
      q.filter p ≠ [] → softStep true p q = q.filter p) ∧
    (∀ (enabled : Bool) (p : Song → Bool) (q : List Song),
      q ≠ [] → softStep enabled p q ≠ []) := by
  refine ⟨?_, ?_, ?_, ?_⟩
  · rw [applyCriteria, applyCriteriaSpec, energyStepSrc_eq_softStep,
      artistStepSrc_eq_softStep, bpmStepSrc_eq_softStep,
      genreStepSrc_eq_softStep, harmonicStepSrc_eq_softStep]
  · intro enabled p q h
    cases enabled <;> simp [softStep, h]
  · intro p q h
    simp [softStep, h]
  · intro enabled p q h
    cases enabled
    · simpa [softStep] using h
    · simp only [softStep, if_pos rfl]
      rcases hm : q.filter p with _ | ⟨x, xs⟩
      · simpa [hm] using h
      · simp [hm]

/-- Witness for C2: an enabled step whose narrowed set is non-empty
replaces the pool by the narrowed set. -/
theorem soft_criteria_order_and_skip_witness :
    ([sampleSong].filter (fun _ => true) ≠ []) ∧
    softStep true (fun _ => true) [sampleSong] =
      [sampleSong].filter (fun _ => true) := by
  have h := (soft_criteria_order_and_skip
    ⟨PlaylistSource.library, false, false, false, false, 8, false,
      EnergyFlow.any⟩ none []).2.2.1
    (fun _ => true) [sampleSong] (by simp)
  exact ⟨by simp, h⟩

theorem tier4_ne_nil (lib p3 p4 : List Song) (h : lib ≠ []) :
    (if p3.isEmpty then (if p4.isEmpty then lib else p4) else p3) ≠ [] := by
  split_ifs with h3 h4
  · exact h
  · intro hc
    rw [hc] at h4
    simp at h4
  · intro hc
    rw [hc] at h3
    simp at h3

theorem tierPool_ne_nil (lib hist : List Song) (curId avoid : Option ℕ)
    (h : lib ≠ []) : tierPool lib hist curId avoid ≠ [] := by
  unfold tierPool
  exact tier4_ne_nil lib _ _ h

theorem finalSelect_isSome (s : AutoDjSettings) (lib : List Song)
    (curId : Option ℕ) (pool : List Song) (rand : ℕ) (h : pool ≠ []) :
    (finalSelect s lib curId pool rand).isSome := by
  obtain ⟨x, xs, rfl⟩ := List.exists_cons_of_ne_nil h
  unfold finalSelect
  split_ifs with hs
  · have hlt : rand % (x :: xs).length < (x :: xs).length :=
      Nat.mod_lt _ (by simp)
    rw [List.getElem?_eq_getElem hlt]
    rfl
  · rcases hE : curId.bind (fun cid => lib.findIdx? (fun t => t.id == cid))
      with _ | ci
    · simp only [hE]
      rfl
    · rcases hW : seqWalk lib (x :: xs) ci with _ | m
      · simp only [hE, hW]
        rfl
      · simp only [hE, hW]
        rfl

/-- C1: with a non-empty library, the Auto-DJ next-track selection
always yields some track: the tier-4 fallback pool is never empty, the
soft criteria cannot empty it, and both the shuffle draw and the
sequential walk with head fallback produce an element.  (The embedded
selection is a total function, so the code path can neither return null
nor throw.) -/
theorem getNextTrack_total (s : AutoDjSettings) (lib hist queue : List Song)
    (current : Option Song) (avoid : Option ℕ) (rand : ℕ) (hlib : lib ≠ []) :
    (getNextTrack s lib hist queue current avoid rand).isSome := by
  simp only [getNextTrack]
  split_ifs with hq hpool hf
  · obtain ⟨x, xs, rfl⟩ := List.exists_cons_of_ne_nil hq.2
    rfl
  · exact absurd hpool (tierPool_ne_nil lib hist _ _ hlib)
  · exact finalSelect_isSome _ _ _ _ _
      (by
        intro hc
        rw [hc] at hf
        simp at hf)
  · exact finalSelect_isSome _ _ _ _ _ (tierPool_ne_nil lib hist _ _ hlib)

/-- A second sample track. -/
def songB : Song :=
  ⟨2, "Other - B.mp3", 0, some "9A", some 126, some "House", some 6⟩

/-- Witness for C1: the two-track library with both tracks already in
the play history still yields a track. -/
theorem getNextTrack_total_witness :
    ([sampleSong, songB] : List Song) ≠ [] ∧
    (getNextTrack
      ⟨PlaylistSource.library, false, false, false, false, 8, false,
        EnergyFlow.any⟩
      [sampleSong, songB] [sampleSong, songB] [] (some sampleSong) none
      0).isSome :=
  ⟨by simp,
    getNextTrack_total _ [sampleSong, songB] [sampleSong, songB] []
      (some sampleSong) none 0 (by simp)⟩

end DJApp
